import Mathlib

/-!
Verification of the eclairjs-node SQL binding layer (src/lib/sql/DataFrame.js and
src/lib/sql/Row.js) against its natural-language specification.

The development shallowly embeds the row-decoding resolver `_resolveRows`, the
promise-sequenced remote dispatch of the `Row` accessor methods, the argument
marshalling of `DataFrame.sample` / `DataFrame.explain`, and the static table
renderer `DataFrame.show`.  JavaScript machinery that the source files call but
that is external to them (JSON.parse, parseInt, parseFloat, the kernel protocol
adapters, the template renderer, RowFactory) is modelled explicitly; each such
definition carries a doc comment saying what it models.
-/

set_option linter.unusedVariables false

/-! ## JSON value model

`JValue` models the values produced by JavaScript's `JSON.parse`: null, booleans,
numbers, strings, arrays and objects.  Number literals are restricted to integers
in this model (floating-point payloads are outside the decidable fragment); object
fields are an ordered association list, assumed duplicate-free. -/

inductive JValue where
  | jnull
  | jbool (b : Bool)
  | jnum (n : Int)
  | jstr (s : String)
  | jarr (xs : List JValue)
  | jobj (fields : List (String × JValue))

/-- JavaScript property access `v[k]`: throws a TypeError on `null`
(modelled as `Except.error ()`), returns the field on objects (first binding;
objects are assumed duplicate-free), and `undefined` (modelled `Option.none`)
otherwise. -/
def jsMember (v : JValue) (k : String) : Except Unit (Option JValue) :=
  match v with
  | .jnull => .error ()
  | .jobj fs => .ok ((fs.find? (fun p => p.1 = k)).map (fun p => p.2))
  | _ => .ok none

/-- The value of property `k` when access does not throw and the key is present. -/
def jsMemberD (v : JValue) (k : String) : Option JValue :=
  match jsMember v k with
  | .ok (some w) => some w
  | _ => none

/-! ## Decimal digits: rendering and JS-style parsing

The Argument Marshaller and the numeric response coercions exchange numbers as
decimal text.  `renderNat` / `renderInt` / `renderDecimal` model the canonical
decimal rendering of a JavaScript number (no exponent notation, which JS uses
only for magnitudes outside the range exercised here); `parseIntJS` and
`parseFloatJS` model the JS builtins `parseInt` (base 10, no `0x` handling) and
`parseFloat` (no exponent/`Infinity` handling), which parse a longest numeric
prefix after skipping leading whitespace and return NaN (`Option.none`) when no
digits are found. -/

def isDigitCh (c : Char) : Bool := 48 ≤ c.toNat && c.toNat ≤ 57

def charVal (c : Char) : Nat := c.toNat - 48

/-- Value of a big-endian digit-character list, as accumulated left to right. -/
def charsVal (cs : List Char) : Nat := cs.foldl (fun a c => 10 * a + charVal c) 0

/-- Little-endian decimal digits with explicit fuel (structural recursion, so
the kernel can evaluate it; the fuel never runs out when it starts at `n`). -/
def natDigitsLEFuel : Nat → Nat → List Nat
  | _, 0 => []
  | 0, _ + 1 => []
  | fuel + 1, n + 1 => (n + 1) % 10 :: natDigitsLEFuel fuel ((n + 1) / 10)

/-- Little-endian list of decimal digit values of `n` (empty for `0`). -/
def natDigitsLE (n : Nat) : List Nat := natDigitsLEFuel n n

theorem natDigitsLEFuel_congr :
    ∀ n f1 f2, n ≤ f1 → n ≤ f2 → natDigitsLEFuel f1 n = natDigitsLEFuel f2 n := by
  intro n
  induction n using Nat.strong_induction_on with
  | _ n ih =>
    intro f1 f2 h1 h2
    match n, f1, f2 with
    | 0, f1, f2 => cases f1 <;> cases f2 <;> rfl
    | m + 1, g1 + 1, g2 + 1 =>
      simp only [natDigitsLEFuel]
      have hd : (m + 1) / 10 < m + 1 := Nat.div_lt_self (Nat.succ_pos m) (by omega)
      have hg1 : (m + 1) / 10 ≤ g1 := by omega
      have hg2 : (m + 1) / 10 ≤ g2 := by omega
      rw [ih ((m + 1) / 10) hd g1 g2 hg1 hg2]

theorem natDigitsLE_zero : natDigitsLE 0 = [] := rfl

theorem natDigitsLE_succ (n : Nat) :
    natDigitsLE (n + 1) = (n + 1) % 10 :: natDigitsLE ((n + 1) / 10) := by
  have hd : (n + 1) / 10 < n + 1 := Nat.div_lt_self (Nat.succ_pos n) (by omega)
  show natDigitsLEFuel (n + 1) (n + 1) = (n + 1) % 10 :: natDigitsLEFuel ((n + 1) / 10) ((n + 1) / 10)
  simp only [natDigitsLEFuel]
  rw [natDigitsLEFuel_congr ((n + 1) / 10) n ((n + 1) / 10) (by omega) (le_refl _)]

/-- The character for a single decimal digit value. -/
def digitCh (d : Nat) : Char := Char.ofNat (48 + d)

/-- Big-endian digit characters of a positive natural number. -/
def digitChars (n : Nat) : List Char := (natDigitsLE n).reverse.map digitCh

def renderNatChars (n : Nat) : List Char := if n = 0 then [ '0' ] else digitChars n

def renderNat (n : Nat) : String := String.mk (renderNatChars n)

def renderIntChars (i : Int) : List Char :=
  if i < 0 then '-' :: renderNatChars i.natAbs else renderNatChars i.natAbs

/-- Canonical decimal rendering of an integral JavaScript number. -/
def renderInt (i : Int) : String := String.mk (renderIntChars i)

/-- Value of a big-endian list of digit values. -/
def digitsNatVal (ds : List Nat) : Nat := ds.foldl (fun a x => 10 * a + x) 0

/-- A finite-decimal JavaScript number: sign, integer part, fraction digits. -/
structure Decimal where
  neg : Bool
  ip : Nat
  frac : List Nat
deriving DecidableEq

/-- The rational value denoted by a `Decimal`. -/
def Decimal.val (d : Decimal) : ℚ :=
  (if d.neg then -1 else 1) * ((d.ip : ℚ) + (digitsNatVal d.frac : ℚ) / (10 : ℚ) ^ d.frac.length)

def renderDecimalChars (d : Decimal) : List Char :=
  (if d.neg then [ '-' ] else []) ++ renderNatChars d.ip ++
    (if d.frac.isEmpty then [] else '.' :: d.frac.map digitCh)

/-- Canonical decimal rendering of a finite-decimal JavaScript number. -/
def renderDecimal (d : Decimal) : String := String.mk (renderDecimalChars d)

/-- Longest digit-prefix parse: `Option.none` models NaN (no digits at all). -/
def parseDigitsBE (cs : List Char) : Option Nat :=
  let ds := cs.takeWhile isDigitCh
  if ds.isEmpty then none else some (charsVal ds)

/-- Models the JavaScript builtin `parseInt(s)` (base 10; `0x` prefixes and
non-decimal radixes are not modelled).  `Option.none` models NaN. -/
def parseIntJS (s : String) : Option Int :=
  let cs := s.data.dropWhile Char.isWhitespace
  if cs.head? = some '-' then (parseDigitsBE cs.tail).map (fun v => -(Int.ofNat v))
  else if cs.head? = some '+' then (parseDigitsBE cs.tail).map (fun v => Int.ofNat v)
  else (parseDigitsBE cs).map (fun v => Int.ofNat v)

def parsePosFloat (cs : List Char) : Option ℚ :=
  let ds1 := cs.takeWhile isDigitCh
  let rest1 := cs.dropWhile isDigitCh
  if rest1.head? = some '.' then
    let ds2 := rest1.tail.takeWhile isDigitCh
    if ds1.isEmpty && ds2.isEmpty then none
    else some ((charsVal ds1 : ℚ) + (charsVal ds2 : ℚ) / (10 : ℚ) ^ ds2.length)
  else if ds1.isEmpty then none else some ((charsVal ds1 : ℚ))

/-- Models the JavaScript builtin `parseFloat(s)` (decimal notation only;
exponents and `Infinity` are not modelled).  `Option.none` models NaN. -/
def parseFloatJS (s : String) : Option ℚ :=
  let cs := s.data.dropWhile Char.isWhitespace
  if cs.head? = some '-' then (parsePosFloat cs.tail).map Neg.neg
  else if cs.head? = some '+' then parsePosFloat cs.tail
  else parsePosFloat cs

/-- Models `s.charCodeAt(0)`: the code of the first character, NaN (`none`) for
the empty string. -/
def charCodeAt0 (s : String) : Option Nat := s.data.head?.map Char.toNat

/-! ### Round-trip lemmas for the digit machinery -/

theorem natDigitsLE_lt10 : ∀ n, ∀ d ∈ natDigitsLE n, d < 10 := by
  intro n
  induction n using Nat.strong_induction_on with
  | _ n ih =>
    match n with
    | 0 => simp [natDigitsLE_zero]
    | m + 1 =>
      rw [natDigitsLE_succ]
      intro d hd
      rcases List.mem_cons.mp hd with h | h
      · omega
      · exact ih ((m + 1) / 10) (Nat.div_lt_self (Nat.succ_pos m) (by omega)) d h

theorem digitCh_toNat {d : Nat} (h : d < 10) : (digitCh d).toNat = 48 + d := by
  interval_cases d <;> rfl

theorem isDigitCh_digitCh {d : Nat} (h : d < 10) : isDigitCh (digitCh d) = true := by
  interval_cases d <;> rfl

theorem charVal_digitCh {d : Nat} (h : d < 10) : charVal (digitCh d) = d := by
  interval_cases d <;> rfl

theorem charsVal_append_one (cs : List Char) (c : Char) :
    charsVal (cs ++ [ c ]) = 10 * charsVal cs + charVal c := by
  simp [charsVal, List.foldl_append]

theorem charsVal_digitChars : ∀ n, charsVal (digitChars n) = n := by
  intro n
  induction n using Nat.strong_induction_on with
  | _ n ih =>
    match n with
    | 0 => simp [digitChars, natDigitsLE_zero, charsVal]
    | m + 1 =>
      have hrec := ih ((m + 1) / 10) (Nat.div_lt_self (Nat.succ_pos m) (by omega))
      have hmod : (m + 1) % 10 < 10 := by omega
      calc charsVal (digitChars (m + 1))
          = charsVal (digitChars ((m + 1) / 10) ++ [ digitCh ((m + 1) % 10) ]) := by
            simp [digitChars, natDigitsLE_succ]
        _ = 10 * ((m + 1) / 10) + (m + 1) % 10 := by
            rw [charsVal_append_one, hrec, charVal_digitCh hmod]
        _ = m + 1 := by omega

theorem digitChars_all_digit (n : Nat) : ∀ c ∈ digitChars n, isDigitCh c = true := by
  intro c hc
  rcases List.mem_map.mp hc with ⟨d, hd, rfl⟩
  exact isDigitCh_digitCh (natDigitsLE_lt10 n d (List.mem_reverse.mp hd))

theorem renderNatChars_all_digit (n : Nat) : ∀ c ∈ renderNatChars n, isDigitCh c = true := by
  intro c hc
  by_cases h : n = 0
  · simp [renderNatChars, h] at hc; subst hc; rfl
  · simpa [renderNatChars, h] using digitChars_all_digit n c (by simpa [renderNatChars, h] using hc)

theorem renderNatChars_ne_nil (n : Nat) : renderNatChars n ≠ [] := by
  by_cases h : n = 0
  · simp [renderNatChars, h]
  · have : natDigitsLE n ≠ [] := by
      match n, h with
      | m + 1, _ => rw [natDigitsLE_succ]; simp
    simp only [renderNatChars, h, if_false]
    simpa [digitChars] using this

theorem charsVal_renderNatChars (n : Nat) : charsVal (renderNatChars n) = n := by
  by_cases h : n = 0
  · simp [renderNatChars, h]; rfl
  · simp only [renderNatChars, h, if_false]
    exact charsVal_digitChars n

theorem not_whitespace_of_digit {c : Char} (h : isDigitCh c = true) :
    Char.isWhitespace c = false := by
  simp only [isDigitCh, Bool.and_eq_true, decide_eq_true_eq] at h
  by_contra hw
  rw [Bool.not_eq_false] at hw
  simp only [Char.isWhitespace, Bool.or_eq_true, decide_eq_true_eq] at hw
  rcases hw with ((rfl | rfl) | rfl) | rfl <;> exact absurd h (by decide)

theorem takeWhile_all {p : Char → Bool} :
    ∀ {l : List Char}, (∀ c ∈ l, p c = true) → l.takeWhile p = l := by
  intro l
  induction l with
  | nil => intro _; rfl
  | cons a l ih =>
    intro h
    have ha := h a (by simp)
    simp [List.takeWhile_cons, ha, ih (fun c hc => h c (by simp [hc]))]

theorem dropWhile_all {p : Char → Bool} :
    ∀ {l : List Char}, (∀ c ∈ l, p c = true) → l.dropWhile p = [] := by
  intro l
  induction l with
  | nil => intro _; rfl
  | cons a l ih =>
    intro h
    have ha := h a (by simp)
    simp [List.dropWhile_cons, ha, ih (fun c hc => h c (by simp [hc]))]

theorem takeWhile_append_stop {p : Char → Bool} {xs : List Char} {y : Char} {ys : List Char}
    (hxs : ∀ c ∈ xs, p c = true) (hy : p y = false) :
    (xs ++ y :: ys).takeWhile p = xs := by
  induction xs with
  | nil => simp [List.takeWhile_cons, hy]
  | cons a l ih =>
    have ha := hxs a (by simp)
    simp [List.takeWhile_cons, ha, ih (fun c hc => hxs c (by simp [hc]))]

theorem dropWhile_append_stop {p : Char → Bool} {xs : List Char} {y : Char} {ys : List Char}
    (hxs : ∀ c ∈ xs, p c = true) (hy : p y = false) :
    (xs ++ y :: ys).dropWhile p = y :: ys := by
  induction xs with
  | nil => simp [List.dropWhile_cons, hy]
  | cons a l ih =>
    have ha := hxs a (by simp)
    simp [List.dropWhile_cons, ha, ih (fun c hc => hxs c (by simp [hc]))]

theorem charsVal_map_digitCh_aux : ∀ (ds : List Nat) (a : Nat), (∀ x ∈ ds, x < 10) →
    (ds.map digitCh).foldl (fun a c => 10 * a + charVal c) a = ds.foldl (fun a x => 10 * a + x) a := by
  intro ds
  induction ds with
  | nil => intro a _; rfl
  | cons x l ih =>
    intro a h
    simp only [List.map_cons, List.foldl_cons]
    rw [charVal_digitCh (h x (by simp))]
    exact ih _ (fun y hy => h y (by simp [hy]))

theorem charsVal_map_digitCh (ds : List Nat) (h : ∀ x ∈ ds, x < 10) :
    charsVal (ds.map digitCh) = digitsNatVal ds :=
  charsVal_map_digitCh_aux ds 0 h

/-- JS `parseInt` inverts the canonical decimal rendering of any integer. -/
theorem parseIntJS_renderInt (i : Int) : parseIntJS (renderInt i) = some i := by
  have hall := renderNatChars_all_digit i.natAbs
  have hne := renderNatChars_ne_nil i.natAbs
  have hval := charsVal_renderNatChars i.natAbs
  have hemp : (renderNatChars i.natAbs).isEmpty = false := by
    cases h : renderNatChars i.natAbs with
    | nil => exact absurd h hne
    | cons c cs => rfl
  have hparse : parseDigitsBE (renderNatChars i.natAbs) = some i.natAbs := by
    simp [parseDigitsBE, takeWhile_all hall, hemp, hval]
  by_cases hi : i < 0
  · have hchars : (renderInt i).data = '-' :: renderNatChars i.natAbs := by
      simp [renderInt, renderIntChars, hi]
    have hdrop : (renderInt i).data.dropWhile Char.isWhitespace = '-' :: renderNatChars i.natAbs := by
      rw [hchars, List.dropWhile_cons]
      simp
    simp only [parseIntJS, hdrop, List.head?_cons]
    rw [if_pos trivial]
    simp only [List.tail_cons, hparse, Option.map_some']
    congr 1
    simp only [Int.ofNat_eq_coe]
    omega
  · have hchars : (renderInt i).data = renderNatChars i.natAbs := by
      simp [renderInt, renderIntChars, hi]
    obtain ⟨c, cs, hcons⟩ : ∃ c cs, renderNatChars i.natAbs = c :: cs := by
      cases h : renderNatChars i.natAbs with
      | nil => exact absurd h hne
      | cons c cs => exact ⟨c, cs, rfl⟩
    have hcd : isDigitCh c = true := hall c (by rw [hcons]; simp)
    have hcm : (some c : Option Char) ≠ some '-' := by
      intro hc
      have hc2 : c = '-' := by injection hc
      subst hc2; exact absurd hcd (by decide)
    have hcp : (some c : Option Char) ≠ some '+' := by
      intro hc
      have hc2 : c = '+' := by injection hc
      subst hc2; exact absurd hcd (by decide)
    have hdrop : (renderInt i).data.dropWhile Char.isWhitespace = c :: cs := by
      rw [hchars, hcons, List.dropWhile_cons, not_whitespace_of_digit hcd]
      simp
    simp only [parseIntJS, hdrop, List.head?_cons]
    rw [if_neg hcm, if_neg hcp, ← hcons, hparse]
    simp only [Option.map_some']
    congr 1
    simp only [Int.ofNat_eq_coe]
    omega

/-- JS `parseFloat` inverts the canonical decimal rendering of any
finite-decimal number whose fraction digits are genuine digits. -/
theorem parseFloatJS_renderDecimal (d : Decimal) (h10 : ∀ x ∈ d.frac, x < 10) :
    parseFloatJS (renderDecimal d) = some d.val := by
  have hall := renderNatChars_all_digit d.ip
  have hne := renderNatChars_ne_nil d.ip
  have hvalip := charsVal_renderNatChars d.ip
  have hemp : (renderNatChars d.ip).isEmpty = false := by
    cases h : renderNatChars d.ip with
    | nil => exact absurd h hne
    | cons c cs => rfl
  obtain ⟨c, cs, hcons⟩ : ∃ c cs, renderNatChars d.ip = c :: cs := by
    cases h : renderNatChars d.ip with
    | nil => exact absurd h hne
    | cons c cs => exact ⟨c, cs, rfl⟩
  have hcd : isDigitCh c = true := hall c (by rw [hcons]; simp)
  have hcm : (some c : Option Char) ≠ some '-' := by
    intro hc
    have hc2 : c = '-' := by injection hc
    subst hc2; exact absurd hcd (by decide)
  have hcp : (some c : Option Char) ≠ some '+' := by
    intro hc
    have hc2 : c = '+' := by injection hc
    subst hc2; exact absurd hcd (by decide)
  have hfall : ∀ x ∈ d.frac.map digitCh, isDigitCh x = true := by
    intro x hx
    rcases List.mem_map.mp hx with ⟨y, hy, rfl⟩
    exact isDigitCh_digitCh (h10 y hy)
  by_cases hf : d.frac.isEmpty
  · -- no fraction digits: the rendering is just the (signed) integer part
    have hposparse : parsePosFloat (renderNatChars d.ip) = some (d.ip : ℚ) := by
      simp only [parsePosFloat, takeWhile_all hall, dropWhile_all hall, List.head?_nil]
      rw [if_neg (by simp)]
      simp [hemp, hvalip]
    have hvale : d.val = (if d.neg then -1 else 1) * (d.ip : ℚ) := by
      have : d.frac = [] := List.isEmpty_iff.mp hf
      simp [Decimal.val, this, digitsNatVal]
    by_cases hn : d.neg
    · have hchars : (renderDecimal d).data = '-' :: renderNatChars d.ip := by
        simp [renderDecimal, renderDecimalChars, hn, hf]
      have hdrop : (renderDecimal d).data.dropWhile Char.isWhitespace
          = '-' :: renderNatChars d.ip := by
        rw [hchars, List.dropWhile_cons]
        simp
      simp only [parseFloatJS, hdrop, List.head?_cons]
      rw [if_pos trivial]
      simp only [List.tail_cons, hposparse, Option.map_some']
      rw [hvale]
      simp [hn]
    · have hchars : (renderDecimal d).data = renderNatChars d.ip := by
        simp [renderDecimal, renderDecimalChars, hn, hf]
      have hdrop : (renderDecimal d).data.dropWhile Char.isWhitespace = c :: cs := by
        rw [hchars, hcons, List.dropWhile_cons, not_whitespace_of_digit hcd]
        simp
      simp only [parseFloatJS, hdrop, List.head?_cons]
      rw [if_neg hcm, if_neg hcp, ← hcons, hposparse, hvale]
      simp [hn]
  · -- fraction digits present: the rendering is sign ++ int part ++ '.' ++ fraction
    have hdotd : isDigitCh '.' = false := by decide
    have hposparse : parsePosFloat (renderNatChars d.ip ++ '.' :: d.frac.map digitCh)
        = some ((d.ip : ℚ) + (digitsNatVal d.frac : ℚ) / (10 : ℚ) ^ d.frac.length) := by
      simp only [parsePosFloat, takeWhile_append_stop hall hdotd,
        dropWhile_append_stop hall hdotd, List.head?_cons]
      rw [if_pos trivial]
      simp only [List.tail_cons, takeWhile_all hfall, hemp, Bool.false_and,
        Bool.false_eq_true, if_false]
      rw [hvalip, charsVal_map_digitCh d.frac h10]
      simp
    have hvale : d.val = (if d.neg then -1 else 1)
        * ((d.ip : ℚ) + (digitsNatVal d.frac : ℚ) / (10 : ℚ) ^ d.frac.length) := rfl
    by_cases hn : d.neg
    · have hchars : (renderDecimal d).data
          = '-' :: (renderNatChars d.ip ++ '.' :: d.frac.map digitCh) := by
        simp [renderDecimal, renderDecimalChars, hn, hf]
      have hdrop : (renderDecimal d).data.dropWhile Char.isWhitespace
          = '-' :: (renderNatChars d.ip ++ '.' :: d.frac.map digitCh) := by
        rw [hchars, List.dropWhile_cons]
        simp
      simp only [parseFloatJS, hdrop, List.head?_cons]
      rw [if_pos trivial]
      simp only [List.tail_cons, hposparse, Option.map_some']
      rw [hvale]
      simp [hn]
    · have hchars : (renderDecimal d).data
          = renderNatChars d.ip ++ '.' :: d.frac.map digitCh := by
        simp [renderDecimal, renderDecimalChars, hn, hf]
      have hdrop : (renderDecimal d).data.dropWhile Char.isWhitespace
          = c :: (cs ++ '.' :: d.frac.map digitCh) := by
        rw [hchars, hcons, List.cons_append, List.dropWhile_cons,
          not_whitespace_of_digit hcd]
        simp
      simp only [parseFloatJS, hdrop, List.head?_cons]
      rw [if_neg hcm, if_neg hcp, ← List.cons_append, ← hcons, hposparse, hvale]
      simp [hn]

/-! ## JSON.stringify model

`stringifyJ` models the JavaScript builtin `JSON.stringify` on `JValue`
(numbers are integral; string escaping covers quote, backslash and the common
control characters, other control characters are passed through). -/

def escCh (c : Char) : String :=
  if c = '"' then "\\\"" else if c = '\\' then "\\\\"
  else if c = '\n' then "\\n" else if c = '\t' then "\\t"
  else if c = '\x0d' then "\\r" else String.singleton c

def escapeJSON (s : String) : String := String.join (s.data.map escCh)

mutual

def stringifyJ : JValue → String
  | .jnull => "null"
  | .jbool b => cond b "true" "false"
  | .jnum n => renderInt n
  | .jstr s => "\"" ++ escapeJSON s ++ "\""
  | .jarr xs => "[" ++ stringifyArr xs ++ "]"
  | .jobj fs => "\x7b" ++ stringifyObj fs ++ "\x7d"

def stringifyArr : List JValue → String
  | [] => ""
  | [ x ] => stringifyJ x
  | x :: y :: xs => stringifyJ x ++ "," ++ stringifyArr (y :: xs)

def stringifyObj : List (String × JValue) → String
  | [] => ""
  | [ (k, v) ] => "\"" ++ escapeJSON k ++ "\":" ++ stringifyJ v
  | (k, v) :: f :: fs => "\"" ++ escapeJSON k ++ "\":" ++ stringifyJ v ++ "," ++ stringifyObj (f :: fs)

end

/-! ## The row-decoding resolver `_resolveRows`

`_resolveRows` (src/lib/sql/DataFrame.js lines 22-42) is the custom resolver
installed by `DataFrame.collect` (lines 179-189) and `DataFrame.take`
(lines 993-1006).  Its input is the kernel's stringified response; the model
takes the outcome of `JSON.parse` directly (`none` models a string on which
`JSON.parse` throws).  `Except.error` models `reject(new Error("Parse Error: "
+ e.message))` — only the constant prefix of the message is modelled —
and `Except.ok` models `resolve(rows)`. -/

/-- A Row value constructed locally from a decoded payload element. -/
structure LocalRow where
  values : JValue
  schema : JValue

/-- Modelled from the spec: `RowFactory.createLocal` (lib/sql/RowFactory.js is
not part of the corpus).  The spec's Row-sequence decode rule constructs a
local Row value from the element's `values` and `schema` and "must reject
malformed payloads (missing `values` or `schema`)"; the rejection is modelled
as a thrown error (`Except.error`), which the try/catch in `_resolveRows`
turns into a rejection. -/
def RowFactory.createLocal (values schema : Option JValue) : Except String LocalRow :=
  match values, schema with
  | some v, some s => .ok ⟨v, s⟩
  | _, _ => .error "missing values or schema"

/-- One iteration of the `res.forEach` body in `_resolveRows` (lines 31-34):
read `rowData.values` and `rowData.schema` (property access throws on a null
element) and build the local Row. -/
def decodeRowElem (rowData : JValue) : Except String LocalRow := do
  let v ← (jsMember rowData "values").mapError (fun _ => "TypeError")
  let s ← (jsMember rowData "schema").mapError (fun _ => "TypeError")
  RowFactory.createLocal v s

/-- The `res.forEach` loop (lines 31-34): decode the elements in order,
pushing one local Row per element; a throw anywhere aborts the iteration
(discarding the rows pushed so far). -/
def decodeRows : List JValue → Except String (List LocalRow)
  | [] => .ok []
  | x :: xs => do
    let r ← decodeRowElem x
    let rest ← decodeRows xs
    pure (r :: rest)

/-- The resolver `_resolveRows`: parse failure rejects; an array decodes its elements in
order; any parsed non-array value leaves `rows` empty and resolves. -/
def _resolveRows (result : Option JValue) : Except String (List LocalRow) :=
  match result with
  | none => .error "Parse Error"
  | some res =>
    match res with
    | .jarr xs =>
      match decodeRows xs with
      | .ok rows => .ok rows
      | .error _ => .error "Parse Error"
    | _ => .ok []

/-! ## Promise and dispatch model for the Row methods

Every implemented method of src/lib/sql/Row.js has the shape

  new Promise(function(resolve, reject)
    Promise.all([self.refIdP, self.kernelP]).then(function(values)
      ... build code from the fixed template ...
      protocol.verifyResult(kernel.execute(code), _resolve, reject);
    ).catch(reject); )

The model is static: a promise is `pending`, `rejected` or `resolved`, and a
method call is a `Run`: the list of statements submitted through
`kernel.execute` together with the state of the returned promise. -/

/-- The observable state of a JavaScript promise in this static model. -/
inductive PState (α : Type) where
  | pending
  | rejected (e : String)
  | resolved (a : α)
deriving DecidableEq

/-- One method call: the statements submitted via `kernel.execute`, and the
state of the promise handed back to the caller. -/
structure Run (α : Type) where
  executed : List String
  outcome : PState α
deriving DecidableEq

/-- Model of `Promise.all([a, b]).then(k).catch(reject)` inside a promise executor: a
rejected input rejects the result without running `k`; a pending input (with
none rejected) leaves the result pending; only when both inputs have resolved
does the continuation run. -/
def promiseAll2Run {α β γ : Type} (a : PState α) (b : PState β) (k : α → β → Run γ) : Run γ :=
  match a, b with
  | .rejected e, _ => ⟨[], .rejected e⟩
  | _, .rejected e => ⟨[], .rejected e⟩
  | .pending, _ => ⟨[], .pending⟩
  | _, .pending => ⟨[], .pending⟩
  | .resolved x, .resolved y => k x y

/-- The kernel connection, modelled extensionally as the response it gives to
each submitted statement: `Except.error` models a kernel-reported execution
failure, `Except.ok` the raw result string. -/
def Kernel : Type := String → Except String String

/-- Modelled from the spec: `protocol.verifyResult` (lib/kernel.js is not part
of the corpus) — the result-verification adapter "yields a plain evaluation
result after confirming no execution error" and propagates kernel-side errors
as rejections.  It submits `code` once and feeds the raw result string to the
method's `_resolve`. -/
def verifyResult {α : Type} (kernel : Kernel) (code : String) (res : String → PState α) : Run α :=
  ⟨[ code ],
    match kernel code with
    | .error e => .rejected e
    | .ok raw => res raw⟩

/-! ### Rendered statements

Modelled from the spec: `Utils.processTemplate` (lib/utils.js is not part of
the corpus) performs literal substitution of each placeholder with its slot
value; each fixed template of Row.js is therefore embedded as the
concatenation of its literal segments with the slot values.  Numeric `index`
arguments are rendered with `renderInt`. -/

def Row.anyNullCode (refId : String) : String := refId ++ ".anyNull();"

def Row.fieldIndexCode (refId name : String) : String :=
  refId ++ ".fieldIndex(\"" ++ name ++ "\");"

def Row.getCode (refId : String) (index : Int) : String :=
  refId ++ ".get(" ++ renderInt index ++ ");"

def Row.getBooleanCode (refId : String) (index : Int) : String :=
  refId ++ ".getBoolean(" ++ renderInt index ++ ");"

def Row.getByteCode (refId : String) (index : Int) : String :=
  refId ++ ".getByte(" ++ renderInt index ++ ");"

def Row.getDoubleCode (refId : String) (index : Int) : String :=
  refId ++ ".getDouble(" ++ renderInt index ++ ");"

def Row.getIntCode (refId : String) (index : Int) : String :=
  refId ++ ".getInt(" ++ renderInt index ++ ");"

def Row.getStringCode (refId : String) (index : Int) : String :=
  refId ++ ".getString(" ++ renderInt index ++ ");"

def Row.isNullAtCode (refId : String) (index : Int) : String :=
  refId ++ ".isNullAt(" ++ renderInt index ++ ");"

def Row.lengthCode (refId : String) : String := refId ++ ".length();"

def Row.sizeCode (refId : String) : String := refId ++ ".size();"

/-- The statement built by `Row.prototype.mkString` (Row.js lines 606-628):
the three-argument template when exactly three arguments were passed, the
one-argument template when exactly one was passed, and the zero-argument
template otherwise. -/
def Row.mkStringCode (refId : String) (args : List String) : String :=
  if args.length = 3 then
    refId ++ ".mkString(\"" ++ args.getD 0 "" ++ "\", \"" ++ args.getD 1 "" ++ "\", \""
      ++ args.getD 2 "" ++ "\");"
  else if args.length = 1 then
    refId ++ ".mkString(\"" ++ args.getD 0 "" ++ "\");"
  else
    refId ++ ".mkString();"

/-! ### Response coercions used by the `_resolve` callbacks -/

/-- JS full-string numeric conversion `Number(s)` restricted to plain decimal
notation (hex, exponents and `Infinity` are not modelled); `none` models NaN;
a whitespace-only string converts to `0`. -/
def parseFullPos (cs : List Char) : Option ℚ :=
  let ds1 := cs.takeWhile isDigitCh
  let rest1 := cs.dropWhile isDigitCh
  if rest1.isEmpty then (if ds1.isEmpty then none else some ((charsVal ds1 : ℚ)))
  else if rest1.head? = some '.' then
    let ds2 := rest1.tail.takeWhile isDigitCh
    if (rest1.tail.dropWhile isDigitCh).isEmpty && !(ds1.isEmpty && ds2.isEmpty) then
      some ((charsVal ds1 : ℚ) + (charsVal ds2 : ℚ) / (10 : ℚ) ^ ds2.length)
    else none
  else none

/-- JS `Number(s)` / `isFinite(s)` conversion of a trimmed string. -/
def toNumberJS (s : String) : Option ℚ :=
  let cs := ((s.data.dropWhile Char.isWhitespace).reverse.dropWhile Char.isWhitespace).reverse
  if cs.isEmpty then some 0
  else if cs.head? = some '-' then (parseFullPos cs.tail).map Neg.neg
  else if cs.head? = some '+' then parseFullPos cs.tail
  else parseFullPos cs

/-- The value `Row.prototype.get`'s `_resolve` hands back:
`isFinite(val) ? new Number(val).valueOf() : val`. -/
inductive JsEcho where
  | num (q : ℚ)
  | str (s : String)
deriving DecidableEq

def getResolve (raw : String) : JsEcho :=
  match toNumberJS raw with
  | some q => .num q
  | none => .str raw

/-! ### The implemented Row methods

`refIdP` is the row's remote-handle id promise, `kernelP` the kernel
connection promise.  Methods whose `_resolve` calls `JSON.parse` take the
parse function as an explicit parameter (it is a JS builtin); a parse throw
inside `_resolve` is modelled as a rejection. -/

/-- Model of `Row.prototype.anyNull` (Row.js lines 38-57). -/
def Row.anyNull (jsonParse : String → Option JValue) (refIdP : PState String)
    (kernelP : PState Kernel) : Run JValue :=
  promiseAll2Run refIdP kernelP fun refId kernel =>
    verifyResult kernel (Row.anyNullCode refId) fun raw =>
      match jsonParse raw with
      | some j => .resolved j
      | none => .rejected "SyntaxError"

/-- Model of `Row.prototype.fieldIndex` (Row.js lines 148-167): resolves `parseInt(index)`. -/
def Row.fieldIndex (name : String) (refIdP : PState String)
    (kernelP : PState Kernel) : Run (Option Int) :=
  promiseAll2Run refIdP kernelP fun refId kernel =>
    verifyResult kernel (Row.fieldIndexCode refId name) fun raw => .resolved (parseIntJS raw)

/-- Model of `Row.prototype.get` (Row.js lines 174-192). -/
def Row.get (index : Int) (refIdP : PState String) (kernelP : PState Kernel) : Run JsEcho :=
  promiseAll2Run refIdP kernelP fun refId kernel =>
    verifyResult kernel (Row.getCode refId index) fun raw => .resolved (getResolve raw)

/-- Model of `Row.prototype.getBoolean` (Row.js lines 199-218): resolves `JSON.parse(val)`. -/
def Row.getBoolean (jsonParse : String → Option JValue) (index : Int)
    (refIdP : PState String) (kernelP : PState Kernel) : Run JValue :=
  promiseAll2Run refIdP kernelP fun refId kernel =>
    verifyResult kernel (Row.getBooleanCode refId index) fun raw =>
      match jsonParse raw with
      | some j => .resolved j
      | none => .rejected "SyntaxError"

/-- Model of `Row.prototype.getByte` (Row.js lines 225-242): resolves
`val.charCodeAt(0)`. -/
def Row.getByte (index : Int) (refIdP : PState String) (kernelP : PState Kernel) :
    Run (Option Nat) :=
  promiseAll2Run refIdP kernelP fun refId kernel =>
    verifyResult kernel (Row.getByteCode refId index) fun raw => .resolved (charCodeAt0 raw)

/-- Model of `Row.prototype.getDouble` (Row.js lines 310-328): resolves `parseFloat(val)`. -/
def Row.getDouble (index : Int) (refIdP : PState String) (kernelP : PState Kernel) :
    Run (Option ℚ) :=
  promiseAll2Run refIdP kernelP fun refId kernel =>
    verifyResult kernel (Row.getDoubleCode refId index) fun raw => .resolved (parseFloatJS raw)

/-- Model of `Row.prototype.getInt` (Row.js lines 365-383): resolves `parseInt(val)`. -/
def Row.getInt (index : Int) (refIdP : PState String) (kernelP : PState Kernel) :
    Run (Option Int) :=
  promiseAll2Run refIdP kernelP fun refId kernel =>
    verifyResult kernel (Row.getIntCode refId index) fun raw => .resolved (parseIntJS raw)

/-- Model of `Row.prototype.getString` (Row.js lines 451-464): resolves the raw result. -/
def Row.getString (index : Int) (refIdP : PState String) (kernelP : PState Kernel) :
    Run String :=
  promiseAll2Run refIdP kernelP fun refId kernel =>
    verifyResult kernel (Row.getStringCode refId index) fun raw => .resolved raw

/-- Model of `Row.prototype.isNullAt` (Row.js lines 554-573): resolves `JSON.parse(any)`. -/
def Row.isNullAt (jsonParse : String → Option JValue) (index : Int)
    (refIdP : PState String) (kernelP : PState Kernel) : Run JValue :=
  promiseAll2Run refIdP kernelP fun refId kernel =>
    verifyResult kernel (Row.isNullAtCode refId index) fun raw =>
      match jsonParse raw with
      | some j => .resolved j
      | none => .rejected "SyntaxError"

/-- Model of `Row.prototype.length` (Row.js lines 579-597): resolves `parseInt(length)`. -/
def Row.length (refIdP : PState String) (kernelP : PState Kernel) : Run (Option Int) :=
  promiseAll2Run refIdP kernelP fun refId kernel =>
    verifyResult kernel (Row.lengthCode refId) fun raw => .resolved (parseIntJS raw)

/-- Model of `Row.prototype.mkString` (Row.js lines 606-628): resolves the raw result. -/
def Row.mkString (args : List String) (refIdP : PState String) (kernelP : PState Kernel) :
    Run String :=
  promiseAll2Run refIdP kernelP fun refId kernel =>
    verifyResult kernel (Row.mkStringCode refId args) fun raw => .resolved raw

/-- Model of `Row.prototype.size` (Row.js lines 662-680): resolves `parseInt(length)`. -/
def Row.size (refIdP : PState String) (kernelP : PState Kernel) : Run (Option Int) :=
  promiseAll2Run refIdP kernelP fun refId kernel =>
    verifyResult kernel (Row.sizeCode refId) fun raw => .resolved (parseIntJS raw)

/-! ### The unimplemented Row methods

Each of these begins with
`throw (name:'NotImplementedException', message:'The method is currently not
implemented');` — written with braces in the JS source — so the code after the
throw (which would build a promise and dispatch a statement) is unreachable. -/

/-- Outcome of invoking a Row method synchronously: either the call threw
before returning, or it returned a promise whose dispatch is `r`. -/
inductive SyncResult (α : Type) where
  | thrown (name : String) (message : String)
  | promise (r : Run α)

/-- Statements submitted by a synchronous invocation. -/
def SyncResult.executedCalls {α : Type} : SyncResult α → List String
  | .thrown _ _ => []
  | .promise r => r.executed

/-- Model of `Row.prototype.apply` (Row.js lines 65-87). -/
def Row.apply (index : Int) (refIdP : PState String) (kernelP : PState Kernel) :
    SyncResult JValue :=
  .thrown "NotImplementedException" "The method is currently not implemented"

/-- Model of `Row.prototype.copy` (Row.js lines 94-111). -/
def Row.copy (refIdP : PState String) (kernelP : PState Kernel) : SyncResult String :=
  .thrown "NotImplementedException" "The method is currently not implemented"

/-- Model of `Row.prototype.equals` (Row.js lines 119-141). -/
def Row.equals (o : JValue) (refIdP : PState String) (kernelP : PState Kernel) :
    SyncResult JValue :=
  .thrown "NotImplementedException" "The method is currently not implemented"

/-- Model of `Row.prototype.getDate` (Row.js lines 250-274). -/
def Row.getDate (index : Int) (refIdP : PState String) (kernelP : PState Kernel) :
    SyncResult JValue :=
  .thrown "NotImplementedException" "The method is currently not implemented"

/-- Model of `Row.prototype.getDecimal` (Row.js lines 282-303). -/
def Row.getDecimal (index : Int) (refIdP : PState String) (kernelP : PState Kernel) :
    SyncResult (Option ℚ) :=
  .thrown "NotImplementedException" "The method is currently not implemented"

/-- Model of `Row.prototype.getFloat` (Row.js lines 336-358). -/
def Row.getFloat (index : Int) (refIdP : PState String) (kernelP : PState Kernel) :
    SyncResult (Option ℚ) :=
  .thrown "NotImplementedException" "The method is currently not implemented"

/-- Model of `Row.prototype.getLong` (Row.js lines 391-412). -/
def Row.getLong (index : Int) (refIdP : PState String) (kernelP : PState Kernel) :
    SyncResult (Option Int) :=
  .thrown "NotImplementedException" "The method is currently not implemented"

/-- Model of `Row.prototype.getShort` (Row.js lines 420-442). -/
def Row.getShort (index : Int) (refIdP : PState String) (kernelP : PState Kernel) :
    SyncResult (Option Int) :=
  .thrown "NotImplementedException" "The method is currently not implemented"

/-- Model of `Row.prototype.getStruct` (Row.js lines 472-488). -/
def Row.getStruct (index : Int) (refIdP : PState String) (kernelP : PState Kernel) :
    SyncResult String :=
  .thrown "NotImplementedException" "The method is currently not implemented"

/-- Model of `Row.prototype.getTimestamp` (Row.js lines 496-518). -/
def Row.getTimestamp (index : Int) (refIdP : PState String) (kernelP : PState Kernel) :
    SyncResult JValue :=
  .thrown "NotImplementedException" "The method is currently not implemented"

/-- Model of `Row.prototype.hashCode` (Row.js lines 525-547). -/
def Row.hashCode (refIdP : PState String) (kernelP : PState Kernel) :
    SyncResult (Option Int) :=
  .thrown "NotImplementedException" "The method is currently not implemented"

/-- Model of `Row.prototype.schema` (Row.js lines 635-656). -/
def Row.schema (refIdP : PState String) (kernelP : PState Kernel) : SyncResult String :=
  .thrown "NotImplementedException" "The method is currently not implemented"

/-! ### The dispatch discipline -/

/-- The dispatch discipline of an implemented Row method: no statement is
submitted while a prerequisite is pending; a rejected prerequisite rejects the
result with no statement submitted; a statement is submitted only once both
prerequisites have resolved. -/
def safeDispatch {α : Type} (run : PState String → PState Kernel → Run α) : Prop :=
  (∀ kp, (run .pending kp).executed = []) ∧
  (∀ rp, (run rp .pending).executed = []) ∧
  (∀ e kp, run (.rejected e) kp = ⟨[], .rejected e⟩) ∧
  (∀ r e, run (.resolved r) (.rejected e) = ⟨[], .rejected e⟩) ∧
  (∀ rp kp, (run rp kp).executed ≠ [] → (∃ r, rp = .resolved r) ∧ (∃ k, kp = .resolved k))

theorem promiseAll2Run_safe {α : Type} (k : String → Kernel → Run α) :
    safeDispatch (fun rp kp => promiseAll2Run rp kp k) := by
  refine ⟨?_, ?_, ?_, ?_, ?_⟩
  · intro kp; cases kp <;> rfl
  · intro rp; cases rp <;> rfl
  · intro e kp; cases kp <;> rfl
  · intro r e; rfl
  · intro rp kp h
    cases rp <;> cases kp <;>
      first
      | exact absurd rfl h
      | exact ⟨⟨_, rfl⟩, ⟨_, rfl⟩⟩

/-! ## Argument marshalling for DataFrame.sample / DataFrame.explain -/

/-- A JavaScript argument value as supplied to a DataFrame method;
`undef` models an absent (undefined) trailing optional argument. -/
inductive JsArg where
  | undef
  | bool (b : Bool)
  | num (d : Decimal)
  | str (s : String)
deriving DecidableEq

/-- The declared type tag of an argument descriptor, as written at the call
sites ('boolean', 'number', 'string'). -/
inductive ArgTypeTag where
  | boolean
  | number
  | string
deriving DecidableEq

/-- One argument descriptor as built by the DataFrame methods. -/
structure ArgSpec where
  value : JsArg
  typeTag : Option ArgTypeTag
  optional : Bool
deriving DecidableEq

/-- The descriptor list built by `DataFrame.prototype.sample`
(DataFrame.js lines 850-863). -/
def DataFrame.sampleArgs (withReplacement fraction seed : JsArg) : List ArgSpec :=
  [ ⟨withReplacement, some .boolean, false⟩,
    ⟨fraction, some .number, false⟩,
    ⟨seed, some .number, true⟩ ]

/-- The descriptor list built by `DataFrame.prototype.explain`
(DataFrame.js lines 361-370). -/
def DataFrame.explainArgs (extended : JsArg) : List ArgSpec :=
  [ ⟨extended, some .boolean, true⟩ ]

/-- Modelled from the spec: the Argument Marshaller (lib/utils.js is not part
of the corpus) renders primitive numerics/booleans "via their canonical
textual form" and strings quoted; a non-optional undefined renders as the
text `undefined`. -/
def renderArg : JsArg → String
  | .undef => "undefined"
  | .bool b => cond b "true" "false"
  | .num d => renderDecimal d
  | .str s => "\"" ++ s ++ "\""

def JsArg.isAbsent : JsArg → Bool
  | .undef => true
  | _ => false

/-- Modelled from the spec: "Optional arguments whose value is absent are
omitted entirely from the rendered argument list (not rendered as a
null/undefined placeholder)." -/
def renderArgList (args : List ArgSpec) : List String :=
  (args.filter (fun a => !(a.optional && a.value.isAbsent))).map (fun a => renderArg a.value)

def joinArgs : List String → String
  | [] => ""
  | [ a ] => a
  | a :: b :: rest => a ++ ", " ++ joinArgs (b :: rest)

/-- Modelled from the spec: the Call Dispatcher renders the statement
`"<target-id>.<method>(<rendered-args>);"`. -/
def renderCall (targetId method : String) (args : List ArgSpec) : String :=
  targetId ++ "." ++ method ++ "(" ++ joinArgs (renderArgList args) ++ ");"

/-! ## The static table renderer `DataFrame.show` (DataFrame.js lines 1190-1253) -/

/-- A schema field as read by `DataFrame.show` (only `name` is used). -/
structure SField where
  name : String

/-- A row as consumed by the static `DataFrame.show`: its `values` array and
its `schema.fields`. -/
structure ShowRow where
  values : List JValue
  fields : List SField

/-- The 106-dash pool `seps` (line 1220). -/
def sepsChars : List Char := List.replicate 106 '-'

/-- The 106-space pool `blanks` (line 1221). -/
def blanksChars : List Char := List.replicate 106 ' '

/-- Model of `justify` (lines 1224-1226): `str + blanks.substring(0, len - str.length)`
— right-pad with at most 106 spaces. -/
def justify (s : String) (len : Nat) : String :=
  s ++ String.mk (blanksChars.take (len - s.length))

/-- One column segment of the separator line: `seps.substring(0, w + 1)`. -/
def sepSeg (w : Nat) : String := String.mk (sepsChars.take (w + 1))

/-- Cell rendering (lines 1208-1212): `JSON.stringify`, then replacement by
the first 17 characters plus `"..."` when truncation is requested and the
string is longer than 20 characters. -/
def truncateCell (truncate : Bool) (s : String) : String :=
  if truncate && s.length > 20 then String.mk (s.data.take 17) ++ "..." else s

/-- The inner column loop (lines 1206-1216) for one row.  A row shorter than
the header makes the JS dereference `undefined` (JSON.stringify yields
undefined and `str.length` throws), modelled as `none`. -/
def optMapList {α β : Type} (f : α → Option β) : List α → Option (List β)
  | [] => some []
  | x :: xs => do
    let b ← f x
    let rest ← optMapList f xs
    pure (b :: rest)

def cellStrsOfRow (truncate : Bool) (numCols : Nat) (r : ShowRow) : Option (List String) :=
  optMapList (fun c => (r.values.get? c).map (fun v => truncateCell truncate (stringifyJ v)))
    (List.range numCols)

/-- One iteration of the outer row loop (lines 1203-1218): append the row's
cell strings and bump each column width to any longer cell. -/
def showStep (truncate : Bool) (numCols : Nat) (acc : List (List String) × List Nat)
    (r : ShowRow) : Option (List (List String) × List Nat) :=
  (cellStrsOfRow truncate numCols r).map fun cells =>
    (acc.1 ++ [ cells ], List.zipWith max acc.2 (cells.map String.length))

/-- The data pass of `DataFrame.show` (lines 1195-1218): column widths start
from the header-name lengths of the first row's schema; cell strings are
collected row by row. -/
def showFold (truncate : Bool) (numCols : Nat) :
    List (List String) × List Nat → List ShowRow → Option (List (List String) × List Nat)
  | acc, [] => some acc
  | acc, r :: rs =>
    match showStep truncate numCols acc r with
    | none => none
    | some acc2 => showFold truncate numCols acc2 rs

def showCompute (truncate : Bool) (row0 : ShowRow) (rows : List ShowRow) :
    Option (List (List String) × List Nat) :=
  showFold truncate row0.fields.length
    ([], row0.fields.map (fun f => f.name.length)) rows

/-- The static `DataFrame.show` (lines 1190-1253), as the list of
`console.log` lines it prints paired with a crash flag.  A null/undefined
(`none`) or empty `rows` logs "No data to show" but does not return: the
next statement dereferences `rows[0].schema` and throws a TypeError
(crash flag `true`).  A row shorter than the header crashes during the data
pass before any table line is printed. -/
def DFshow (rows? : Option (List ShowRow)) (truncate : Bool) : List String × Bool :=
  match rows? with
  | none => ([ "No data to show" ], true)
  | some [] => ([ "No data to show" ], true)
  | some (row0 :: rest) =>
    match showCompute truncate row0 (row0 :: rest) with
    | none => ([], true)
    | some (dataStr, colWidths) =>
      let sepLine := "+" ++ String.join (colWidths.map (fun w => sepSeg w ++ "+"))
      let colNames := "|" ++ String.join ((List.zip row0.fields colWidths).map
        (fun p => justify p.1.name (p.2 + 1) ++ "|"))
      let dataLines := dataStr.map (fun cells => "|" ++ String.join
        ((List.zip cells colWidths).map (fun p => justify p.1 (p.2 + 1) ++ "|")))
      ([ sepLine, colNames, sepLine ] ++ dataLines ++ [ sepLine ], false)

/-! ## Lemmas about the decode loop -/

theorem decodeRows_error_of_mem :
    ∀ (xs : List JValue), (∃ x ∈ xs, ∃ e, decodeRowElem x = .error e) →
      ∃ e, decodeRows xs = Except.error e := by
  intro xs
  induction xs with
  | nil => rintro ⟨x, hx, _⟩; exact absurd hx (List.not_mem_nil x)
  | cons a l ih =>
    rintro ⟨x, hx, e, he⟩
    rcases List.mem_cons.mp hx with rfl | hx2
    · exact ⟨e, by simp [decodeRows, he, Bind.bind, Except.bind]⟩
    · cases ha : decodeRowElem a with
      | error ea => exact ⟨ea, by simp [decodeRows, ha, Bind.bind, Except.bind]⟩
      | ok b =>
        obtain ⟨e2, he2⟩ := ih ⟨x, hx2, e, he⟩
        exact ⟨e2, by simp [decodeRows, ha, he2, Bind.bind, Except.bind, Functor.map, Except.map]⟩

theorem decodeRows_eq_map (g : JValue → LocalRow) :
    ∀ (xs : List JValue), (∀ x ∈ xs, decodeRowElem x = .ok (g x)) →
      decodeRows xs = Except.ok (xs.map g) := by
  intro xs
  induction xs with
  | nil => intro _; rfl
  | cons a l ih =>
    intro h
    have ha := h a (by simp)
    have hl := ih (fun x hx => h x (by simp [hx]))
    simp [decodeRows, ha, hl, Bind.bind, Except.bind, Functor.map, Except.map, Pure.pure, Except.pure]

theorem decodeRowElem_ok (x : JValue)
    (hv : (jsMemberD x "values").isSome = true)
    (hs : (jsMemberD x "schema").isSome = true) :
    decodeRowElem x = Except.ok ⟨(jsMemberD x "values").getD JValue.jnull,
      (jsMemberD x "schema").getD JValue.jnull⟩ := by
  obtain ⟨v, hv2⟩ := Option.isSome_iff_exists.mp hv
  obtain ⟨s, hs2⟩ := Option.isSome_iff_exists.mp hs
  have hjv : jsMember x "values" = .ok (some v) := by
    unfold jsMemberD at hv2
    split at hv2
    · simp_all
    · exact absurd hv2 (by simp)
  have hjs : jsMember x "schema" = .ok (some s) := by
    unfold jsMemberD at hs2
    split at hs2
    · simp_all
    · exact absurd hs2 (by simp)
  simp [decodeRowElem, hjv, hjs, RowFactory.createLocal, hv2, hs2,
    Bind.bind, Except.bind, Except.mapError]

/-! ## Claim C1 -/

/-- C1 (counterexample): the payload `"null"` is valid JSON but not a JSON
array, hence malformed as a Row sequence; the claim requires the resolver to
reject it, but `_resolveRows` resolves it with a silently empty row list. -/
theorem C1_counterexample_nonarray_resolves_empty :
    _resolveRows (some JValue.jnull) = Except.ok [] := rfl

/-- C1 (amended): `_resolveRows` rejects (with a "Parse Error") when
`JSON.parse` throws, and when an array element is null or lacks `values` or
`schema` (the modelled row factory throws there, so no partial result
escapes); but a valid-JSON payload that is not an array is resolved with a
silently empty row list instead of being rejected. -/
theorem C1_resolveRows_rejection_behaviour :
    (_resolveRows none = Except.error "Parse Error") ∧
    (∀ j : JValue, (∀ xs, j ≠ JValue.jarr xs) → _resolveRows (some j) = Except.ok []) ∧
    (∀ xs : List JValue, (∃ x ∈ xs, ∃ e, decodeRowElem x = Except.error e) →
      _resolveRows (some (JValue.jarr xs)) = Except.error "Parse Error") := by
  refine ⟨rfl, ?_, ?_⟩
  · intro j h
    cases j with
    | jarr xs => exact absurd rfl (h xs)
    | jnull => rfl
    | jbool b => rfl
    | jnum n => rfl
    | jstr s => rfl
    | jobj fs => rfl
  · intro xs h
    obtain ⟨e, he⟩ := decodeRows_error_of_mem xs h
    simp [_resolveRows, he]

/-- C1 (witness for the amended theorem): a concrete unparseable payload is
rejected; a concrete parseable non-array payload resolves empty; a concrete
array with an element missing `schema` is rejected. -/
theorem C1_witness :
    _resolveRows (some (JValue.jnum 7)) = Except.ok [] ∧
    _resolveRows (some (JValue.jarr [ JValue.jobj [ ("values", JValue.jarr []) ] ]))
      = Except.error "Parse Error" :=
  ⟨C1_resolveRows_rejection_behaviour.2.1 (JValue.jnum 7) (fun xs h => by cases h),
   C1_resolveRows_rejection_behaviour.2.2 _
     ⟨JValue.jobj [ ("values", JValue.jarr []) ], by simp, "missing values or schema", rfl⟩⟩

/-! ## Claim C2 -/

/-- C2: for every well-formed Row-sequence payload — a JSON array in which
every element has both a `values` and a `schema` key — `_resolveRows`
resolves with exactly one local Row per array element, built from that
element's `values` and `schema`, in the array order. -/
theorem C2_resolveRows_wellformed (xs : List JValue)
    (h : ∀ x ∈ xs, (jsMemberD x "values").isSome = true ∧ (jsMemberD x "schema").isSome = true) :
    _resolveRows (some (JValue.jarr xs)) =
      Except.ok (xs.map (fun x => LocalRow.mk ((jsMemberD x "values").getD JValue.jnull)
        ((jsMemberD x "schema").getD JValue.jnull))) ∧
    (xs.map (fun x => LocalRow.mk ((jsMemberD x "values").getD JValue.jnull)
        ((jsMemberD x "schema").getD JValue.jnull))).length = xs.length := by
  constructor
  · have hm := decodeRows_eq_map
      (fun x => LocalRow.mk ((jsMemberD x "values").getD JValue.jnull)
        ((jsMemberD x "schema").getD JValue.jnull)) xs
      (fun x hx => decodeRowElem_ok x (h x hx).1 (h x hx).2)
    simp [_resolveRows, hm]
  · exact List.length_map xs _

/-- The wire-format example element from the spec's end-to-end scenario. -/
def aliceElem : JValue :=
  JValue.jobj
    [ ("values", JValue.jarr [ JValue.jstr "Alice", JValue.jnum 30 ]),
      ("schema", JValue.jobj [ ("fields", JValue.jarr []) ]) ]

/-- C2 (witness): the spec's example payload decodes to exactly one Row. -/
theorem C2_witness :
    _resolveRows (some (JValue.jarr [ aliceElem ])) =
      Except.ok ([ aliceElem ].map (fun x =>
        LocalRow.mk ((jsMemberD x "values").getD JValue.jnull)
          ((jsMemberD x "schema").getD JValue.jnull))) ∧
    ([ aliceElem ].map (fun x => LocalRow.mk ((jsMemberD x "values").getD JValue.jnull)
        ((jsMemberD x "schema").getD JValue.jnull))).length = [ aliceElem ].length :=
  C2_resolveRows_wellformed [ aliceElem ] (by decide)

/-! ## Claim C3 -/

/-- C3: every intentionally unsupported Row operation (apply, copy, equals,
getDate, getDecimal, getFloat, getLong, getShort, getStruct, getTimestamp,
hashCode, schema) fails immediately and synchronously with the
NotImplementedException sentinel for every input: it never returns a promise
and never submits a remote statement. -/
theorem C3_unimplemented_throw_synchronously :
    (∀ i rp kp, Row.apply i rp kp
        = SyncResult.thrown "NotImplementedException" "The method is currently not implemented"
      ∧ (Row.apply i rp kp).executedCalls = []) ∧
    (∀ rp kp, Row.copy rp kp
        = SyncResult.thrown "NotImplementedException" "The method is currently not implemented"
      ∧ (Row.copy rp kp).executedCalls = []) ∧
    (∀ o rp kp, Row.equals o rp kp
        = SyncResult.thrown "NotImplementedException" "The method is currently not implemented"
      ∧ (Row.equals o rp kp).executedCalls = []) ∧
    (∀ i rp kp, Row.getDate i rp kp
        = SyncResult.thrown "NotImplementedException" "The method is currently not implemented"
      ∧ (Row.getDate i rp kp).executedCalls = []) ∧
    (∀ i rp kp, Row.getDecimal i rp kp
        = SyncResult.thrown "NotImplementedException" "The method is currently not implemented"
      ∧ (Row.getDecimal i rp kp).executedCalls = []) ∧
    (∀ i rp kp, Row.getFloat i rp kp
        = SyncResult.thrown "NotImplementedException" "The method is currently not implemented"
      ∧ (Row.getFloat i rp kp).executedCalls = []) ∧
    (∀ i rp kp, Row.getLong i rp kp
        = SyncResult.thrown "NotImplementedException" "The method is currently not implemented"
      ∧ (Row.getLong i rp kp).executedCalls = []) ∧
    (∀ i rp kp, Row.getShort i rp kp
        = SyncResult.thrown "NotImplementedException" "The method is currently not implemented"
      ∧ (Row.getShort i rp kp).executedCalls = []) ∧
    (∀ i rp kp, Row.getStruct i rp kp
        = SyncResult.thrown "NotImplementedException" "The method is currently not implemented"
      ∧ (Row.getStruct i rp kp).executedCalls = []) ∧
    (∀ i rp kp, Row.getTimestamp i rp kp
        = SyncResult.thrown "NotImplementedException" "The method is currently not implemented"
      ∧ (Row.getTimestamp i rp kp).executedCalls = []) ∧
    (∀ rp kp, Row.hashCode rp kp
        = SyncResult.thrown "NotImplementedException" "The method is currently not implemented"
      ∧ (Row.hashCode rp kp).executedCalls = []) ∧
    (∀ rp kp, Row.schema rp kp
        = SyncResult.thrown "NotImplementedException" "The method is currently not implemented"
      ∧ (Row.schema rp kp).executedCalls = []) :=
  ⟨fun _ _ _ => ⟨rfl, rfl⟩, fun _ _ => ⟨rfl, rfl⟩, fun _ _ _ => ⟨rfl, rfl⟩,
   fun _ _ _ => ⟨rfl, rfl⟩, fun _ _ _ => ⟨rfl, rfl⟩, fun _ _ _ => ⟨rfl, rfl⟩,
   fun _ _ _ => ⟨rfl, rfl⟩, fun _ _ _ => ⟨rfl, rfl⟩, fun _ _ _ => ⟨rfl, rfl⟩,
   fun _ _ _ => ⟨rfl, rfl⟩, fun _ _ => ⟨rfl, rfl⟩, fun _ _ => ⟨rfl, rfl⟩⟩

/-! ## Claim C4 -/

/-- C4: every implemented Row operation (anyNull, fieldIndex, get, getBoolean,
getByte, getDouble, getInt, getString, isNullAt, length, mkString, size)
submits a statement through `kernel.execute` only after both the row's
remote-handle id promise and the kernel connection promise have resolved; a
never-resolving prerequisite means no statement is ever submitted, and a
rejected prerequisite rejects the returned promise with no statement
submitted. -/
theorem C4_dispatch_only_after_resolution :
    (∀ jp, safeDispatch (Row.anyNull jp)) ∧
    (∀ n, safeDispatch (Row.fieldIndex n)) ∧
    (∀ i, safeDispatch (Row.get i)) ∧
    (∀ jp i, safeDispatch (Row.getBoolean jp i)) ∧
    (∀ i, safeDispatch (Row.getByte i)) ∧
    (∀ i, safeDispatch (Row.getDouble i)) ∧
    (∀ i, safeDispatch (Row.getInt i)) ∧
    (∀ i, safeDispatch (Row.getString i)) ∧
    (∀ jp i, safeDispatch (Row.isNullAt jp i)) ∧
    safeDispatch Row.length ∧
    (∀ args, safeDispatch (Row.mkString args)) ∧
    safeDispatch Row.size :=
  ⟨fun _ => promiseAll2Run_safe _, fun _ => promiseAll2Run_safe _,
   fun _ => promiseAll2Run_safe _, fun _ _ => promiseAll2Run_safe _,
   fun _ => promiseAll2Run_safe _, fun _ => promiseAll2Run_safe _,
   fun _ => promiseAll2Run_safe _, fun _ => promiseAll2Run_safe _,
   fun _ _ => promiseAll2Run_safe _, promiseAll2Run_safe _,
   fun _ => promiseAll2Run_safe _, promiseAll2Run_safe _⟩

/-- A concrete kernel for witnesses: replies "0" to every statement. -/
def kernelOk : Kernel := fun _ => Except.ok "0"

/-- C4 (witness): with both prerequisites concretely resolved, `Row.get`
submits a nonempty statement list, and the dispatch discipline certifies that
both prerequisites were resolved. -/
theorem C4_witness :
    (∃ r, (PState.resolved "row1" : PState String) = PState.resolved r) ∧
    (∃ k, (PState.resolved kernelOk : PState Kernel) = PState.resolved k) :=
  (C4_dispatch_only_after_resolution.2.2.1 0).2.2.2.2
    (PState.resolved "row1") (PState.resolved kernelOk) (by decide)

/-! ## Claim C10 -/

/-- C10: `Row.prototype.mkString` renders its arguments only at arities one
and three; at arity two (and any other arity outside one and three, including
above three) it renders the bare zero-argument statement `mkString();`, so a
two-argument separator-plus-end call is never transmitted. -/
theorem C10_mkString_two_args_dropped :
    (∀ refId a b, Row.mkStringCode refId [ a, b ] = refId ++ ".mkString();") ∧
    (∀ refId (args : List String), args.length ≠ 1 → args.length ≠ 3 →
      Row.mkStringCode refId args = refId ++ ".mkString();") ∧
    (∀ refId a, Row.mkStringCode refId [ a ]
      = refId ++ ".mkString(\"" ++ a ++ "\");") ∧
    (∀ refId a b c, Row.mkStringCode refId [ a, b, c ]
      = refId ++ ".mkString(\"" ++ a ++ "\", \"" ++ b ++ "\", \"" ++ c ++ "\");") ∧
    (∀ refId kernel a b,
      (Row.mkString [ a, b ] (PState.resolved refId) (PState.resolved kernel)).executed
        = [ refId ++ ".mkString();" ]) := by
  refine ⟨?_, ?_, ?_, ?_, ?_⟩
  · intro refId a b; simp [Row.mkStringCode]
  · intro refId args h1 h3; simp [Row.mkStringCode, h1, h3]
  · intro refId a; simp [Row.mkStringCode]
  · intro refId a b c; simp [Row.mkStringCode]
  · intro refId kernel a b
    simp [Row.mkString, promiseAll2Run, verifyResult, Row.mkStringCode]

/-- C10 (witness): a four-argument call also falls into the zero-argument
branch. -/
theorem C10_witness :
    Row.mkStringCode "row1" [ "a", "b", "c", "d" ] = "row1" ++ ".mkString();" :=
  C10_mkString_two_args_dropped.2.1 "row1" [ "a", "b", "c", "d" ] (by decide) (by decide)

/-! ## Claim C6 -/

/-- A concrete kernel that replies "abc" — not parseable as any numeric
subtype — to every statement. -/
def kernelAbc : Kernel := fun _ => Except.ok "abc"

/-- C6 (counterexample): on the non-numeric payload "abc" the numeric getters
do not reject: `getInt` and `getDouble` resolve with NaN and `getByte`
resolves with 97, the character code of 'a'. -/
theorem C6_counterexample_nonnumeric_resolves :
    (Row.getInt 0 (PState.resolved "row1") (PState.resolved kernelAbc)).outcome
      = PState.resolved (none : Option Int) ∧
    (Row.getDouble 0 (PState.resolved "row1") (PState.resolved kernelAbc)).outcome
      = PState.resolved (none : Option ℚ) ∧
    (Row.getByte 0 (PState.resolved "row1") (PState.resolved kernelAbc)).outcome
      = PState.resolved (some 97) := by
  refine ⟨?_, ?_, ?_⟩ <;> decide

/-- C6 (amended): when the kernel succeeds, the numeric Row getters always
resolve — `getInt` with `parseInt` of the payload (NaN for non-numeric
payloads), `getDouble` with `parseFloat`, `getByte` with the code of the
payload's first character — and the returned promise rejects only when the
kernel itself reports a failure. -/
theorem C6_numeric_coercion_total (idx : Int) (refId : String) (kernel : Kernel) :
    (∀ raw, kernel (Row.getIntCode refId idx) = Except.ok raw →
      (Row.getInt idx (PState.resolved refId) (PState.resolved kernel)).outcome
        = PState.resolved (parseIntJS raw)) ∧
    (∀ raw, kernel (Row.getDoubleCode refId idx) = Except.ok raw →
      (Row.getDouble idx (PState.resolved refId) (PState.resolved kernel)).outcome
        = PState.resolved (parseFloatJS raw)) ∧
    (∀ raw, kernel (Row.getByteCode refId idx) = Except.ok raw →
      (Row.getByte idx (PState.resolved refId) (PState.resolved kernel)).outcome
        = PState.resolved (charCodeAt0 raw)) ∧
    (∀ e, kernel (Row.getIntCode refId idx) = Except.error e →
      (Row.getInt idx (PState.resolved refId) (PState.resolved kernel)).outcome
        = PState.rejected e) := by
  refine ⟨?_, ?_, ?_, ?_⟩ <;> intro x h <;>
    simp [Row.getInt, Row.getDouble, Row.getByte, promiseAll2Run, verifyResult, h]

/-- C6 (witness): the amended theorem applied at the concrete "abc" kernel. -/
theorem C6_witness :
    (Row.getInt 1 (PState.resolved "r") (PState.resolved kernelAbc)).outcome
      = PState.resolved (parseIntJS "abc") :=
  (C6_numeric_coercion_total 1 "r" kernelAbc).1 "abc" rfl

/-! ## Claim C7 -/

/-- A concrete kernel replying with the canonical rendering of the byte 65. -/
def kernel65 : Kernel := fun _ => Except.ok (renderInt 65)

/-- C7 (counterexample): the byte value 65 renders canonically as "65", but
`getByte`'s coercion takes the code of the first character, resolving with
54 ≠ 65 — render-then-parse is not stable for getByte. -/
theorem C7_counterexample_getByte_roundtrip :
    (Row.getByte 0 (PState.resolved "row1") (PState.resolved kernel65)).outcome
      = PState.resolved (some 54) ∧ (54 : Nat) ≠ 65 := by
  refine ⟨?_, ?_⟩ <;> decide

/-- C7 (amended): render-then-parse round-trips exactly for `getInt` on every
integer and for `getDouble` on every finite-decimal number, but `getByte`
coerces via `charCodeAt(0)`, which does not invert decimal rendering. -/
theorem C7_numeric_roundtrip (refId : String) (kernel : Kernel) (idx : Int) :
    (∀ n : Int, kernel (Row.getIntCode refId idx) = Except.ok (renderInt n) →
      (Row.getInt idx (PState.resolved refId) (PState.resolved kernel)).outcome
        = PState.resolved (some n)) ∧
    (∀ d : Decimal, (∀ x ∈ d.frac, x < 10) →
      kernel (Row.getDoubleCode refId idx) = Except.ok (renderDecimal d) →
      (Row.getDouble idx (PState.resolved refId) (PState.resolved kernel)).outcome
        = PState.resolved (some d.val)) := by
  constructor
  · intro n h
    simp [Row.getInt, promiseAll2Run, verifyResult, h, parseIntJS_renderInt n]
  · intro d h10 h
    simp [Row.getDouble, promiseAll2Run, verifyResult, h, parseFloatJS_renderDecimal d h10]

/-- A concrete kernel replying with the canonical rendering of 2.5. -/
def kernel25 : Kernel := fun _ => Except.ok (renderDecimal ⟨false, 2, [ 5 ]⟩)

/-- C7 (witness): the round trip at the concrete values 7 and 2.5. -/
theorem C7_witness :
    (Row.getInt 0 (PState.resolved "r") (PState.resolved kernel65)).outcome
      = PState.resolved (some 65) ∧
    (Row.getDouble 0 (PState.resolved "r") (PState.resolved kernel25)).outcome
      = PState.resolved (some (Decimal.val ⟨false, 2, [ 5 ]⟩)) :=
  ⟨(C7_numeric_roundtrip "r" kernel65 0).1 65 rfl,
   (C7_numeric_roundtrip "r" kernel25 0).2 ⟨false, 2, [ 5 ]⟩ (by decide) rfl⟩

/-! ## Small String lemmas (via the underlying character list) -/

theorem strData_append (a b : String) : (a ++ b).data = a.data ++ b.data := rfl

theorem strExt {a b : String} (h : a.data = b.data) : a = b := by
  cases a; cases b; exact congrArg String.mk h

theorem strLength_data (s : String) : s.length = s.data.length := rfl

theorem strLength_append (a b : String) : (a ++ b).length = a.length + b.length := by
  cases a; cases b; exact List.length_append _ _

theorem strLength_mk (l : List Char) : (String.mk l).length = l.length := rfl

/-! ## Claim C5 -/

/-- C5: an absent trailing optional argument is omitted entirely from the
rendered statement — `sample(withReplacement, fraction)` with no seed renders
exactly the two given arguments, and `explain()` with no flag renders an
empty argument list; neither renders an undefined placeholder. -/
theorem C5_optional_absent_omitted :
    (∀ (wr : Bool) (fr : Decimal) (t : String),
      renderArgList (DataFrame.sampleArgs (JsArg.bool wr) (JsArg.num fr) JsArg.undef)
        = [ renderArg (JsArg.bool wr), renderArg (JsArg.num fr) ] ∧
      renderCall t "sample" (DataFrame.sampleArgs (JsArg.bool wr) (JsArg.num fr) JsArg.undef)
        = t ++ ".sample(" ++ renderArg (JsArg.bool wr) ++ ", " ++ renderDecimal fr ++ ");") ∧
    (∀ t : String,
      renderArgList (DataFrame.explainArgs JsArg.undef) = [] ∧
      renderCall t "explain" (DataFrame.explainArgs JsArg.undef) = t ++ ".explain();") := by
  constructor
  · intro wr fr t
    constructor
    · rfl
    · apply strExt
      simp [renderCall, renderArgList, DataFrame.sampleArgs, joinArgs, renderArg,
        JsArg.isAbsent, strData_append]
  · intro t
    constructor
    · rfl
    · apply strExt
      simp [renderCall, renderArgList, DataFrame.explainArgs, joinArgs,
        JsArg.isAbsent, strData_append]

/-! ## Claim C9 -/

/-- C9: a null/undefined (`none`) or empty rows argument makes the static
`DataFrame.show` log "No data to show" but not return: the next statement
dereferences `rows[0].schema.fields` and throws a TypeError (crash flag
`true`), so the empty-input branch is not a total, safe exit. -/
theorem C9_show_empty_logs_then_crashes (truncate : Bool) :
    DFshow none truncate = ([ "No data to show" ], true) ∧
    DFshow (some []) truncate = ([ "No data to show" ], true) :=
  ⟨rfl, rfl⟩

/-! ## Claim C8: layout lemmas for `DataFrame.show` -/

/-- The rendered (possibly truncated) cell string of row `r` in column `c`. -/
def cellOf (truncate : Bool) (r : ShowRow) (c : Nat) : String :=
  truncateCell truncate (stringifyJ (r.values.getD c JValue.jnull))

/-- The header-name length of column `c`. -/
def headerLen (row0 : ShowRow) (c : Nat) : Nat := (row0.fields.getD c ⟨""⟩).name.length

/-- The column width the claim describes: the maximum of the column's
header-name length and the lengths of all its rendered cells. -/
def widthSpec (truncate : Bool) (row0 : ShowRow) (rows : List ShowRow) (c : Nat) : Nat :=
  rows.foldl (fun a r => max a (cellOf truncate r c).length) (headerLen row0 c)

def spacesStr (k : Nat) : String := String.mk (List.replicate k ' ')

theorem justify_eq_pad (s : String) (len : Nat) (h : len - s.length ≤ 106) :
    justify s len = s ++ spacesStr (len - s.length) := by
  unfold justify spacesStr blanksChars
  rw [List.take_replicate, Nat.min_eq_left h]

theorem truncateCell_false (s : String) : truncateCell false s = s := rfl

theorem truncateCell_length_le (s : String) : (truncateCell true s).length ≤ 20 := by
  by_cases h : s.length > 20
  · simp only [truncateCell, h, Bool.true_and, if_pos, decide_True, if_true]
    rw [strLength_append, strLength_mk, List.length_take]
    have h3 : ("..." : String).length = 3 := rfl
    rw [h3]
    omega
  · simp only [truncateCell]
    rw [if_neg (by simp only [Bool.true_and, decide_eq_true_eq]; omega)]
    omega

theorem truncateCell_long (s : String) (h : 20 < s.length) :
    truncateCell true s = String.mk (s.data.take 17) ++ "..." := by
  simp [truncateCell, h]

theorem optMapList_eq_map {α β : Type} (f : α → Option β) (g : α → β) :
    ∀ (xs : List α), (∀ x ∈ xs, f x = some (g x)) → optMapList f xs = some (xs.map g) := by
  intro xs
  induction xs with
  | nil => intro _; rfl
  | cons a l ih =>
    intro h
    have ha := h a (by simp)
    have hl := ih (fun x hx => h x (by simp [hx]))
    simp [optMapList, ha, hl]

theorem get?_eq_some_getD {α : Type} (l : List α) (n : Nat) (d : α) (h : n < l.length) :
    l.get? n = some (l.getD n d) := by
  cases hx : l.get? n with
  | none => exact absurd (List.get?_eq_none.mp hx) (by omega)
  | some v => rw [List.getD_eq_get?, hx]; rfl

theorem cellStrsOfRow_eq (truncate : Bool) (numCols : Nat) (r : ShowRow)
    (h : numCols ≤ r.values.length) :
    cellStrsOfRow truncate numCols r
      = some ((List.range numCols).map (cellOf truncate r)) := by
  apply optMapList_eq_map
  intro c hc
  have hcn : c < numCols := List.mem_range.mp hc
  rw [get?_eq_some_getD r.values c JValue.jnull (by omega)]
  rfl

theorem showFold_eq (truncate : Bool) (numCols : Nat) :
    ∀ (rows : List ShowRow) (ds0 : List (List String)) (ws0 : List Nat),
      (∀ r ∈ rows, numCols ≤ r.values.length) →
      showFold truncate numCols (ds0, ws0) rows
        = some (ds0 ++ rows.map (fun r => (List.range numCols).map (cellOf truncate r)),
            rows.foldl (fun ws r => List.zipWith max ws
              (((List.range numCols).map (cellOf truncate r)).map String.length)) ws0) := by
  intro rows
  induction rows with
  | nil => intro ds0 ws0 _; simp [showFold]
  | cons r rs ih =>
    intro ds0 ws0 h
    have hr := cellStrsOfRow_eq truncate numCols r (h r (by simp))
    simp only [showFold, showStep, hr, Option.map_some']
    rw [ih (ds0 ++ [ (List.range numCols).map (cellOf truncate r) ]) _
      (fun x hx => h x (by simp [hx]))]
    simp

theorem getD_zipWith_max :
    ∀ (a b : List Nat) (c : Nat), c < a.length → c < b.length →
      (List.zipWith max a b).getD c 0 = max (a.getD c 0) (b.getD c 0) := by
  intro a
  induction a with
  | nil => intro b c h1 h2; simp at h1
  | cons x a ih =>
    intro b c h1 h2
    cases b with
    | nil => simp at h2
    | cons y b =>
      cases c with
      | zero => rfl
      | succ c =>
        simp only [List.zipWith_cons_cons, List.getD_cons_succ]
        exact ih b c (by simpa using h1) (by simpa using h2)

theorem foldl_zipWith_length (numCols : Nat) (lens : ShowRow → List Nat)
    (hl : ∀ r, (lens r).length = numCols) :
    ∀ (rows : List ShowRow) (ws0 : List Nat), ws0.length = numCols →
      (rows.foldl (fun ws r => List.zipWith max ws (lens r)) ws0).length = numCols := by
  intro rows
  induction rows with
  | nil => intro ws0 h; exact h
  | cons r rs ih =>
    intro ws0 h
    simp only [List.foldl_cons]
    exact ih _ (by simp [List.length_zipWith, h, hl r])

theorem foldl_zipWith_max_getD (numCols : Nat) (lens : ShowRow → List Nat)
    (hl : ∀ r, (lens r).length = numCols) :
    ∀ (rows : List ShowRow) (ws0 : List Nat), ws0.length = numCols → ∀ c, c < numCols →
      (rows.foldl (fun ws r => List.zipWith max ws (lens r)) ws0).getD c 0
        = rows.foldl (fun a r => max a ((lens r).getD c 0)) (ws0.getD c 0) := by
  intro rows
  induction rows with
  | nil => intro ws0 h c hc; rfl
  | cons r rs ih =>
    intro ws0 h c hc
    simp only [List.foldl_cons]
    rw [ih (List.zipWith max ws0 (lens r)) (by simp [List.length_zipWith, h, hl r]) c hc,
      getD_zipWith_max ws0 (lens r) c (by omega) (by rw [hl r]; omega)]

theorem init_le_foldl_max {α : Type} (f : α → Nat) :
    ∀ (l : List α) (b : Nat), b ≤ l.foldl (fun a x => max a (f x)) b := by
  intro l
  induction l with
  | nil => intro b; exact le_refl b
  | cons x l ih =>
    intro b
    simp only [List.foldl_cons]
    exact le_trans (Nat.le_max_left b (f x)) (ih (max b (f x)))

theorem mem_le_foldl_max {α : Type} (f : α → Nat) :
    ∀ (l : List α) (b : Nat) (x : α), x ∈ l → f x ≤ l.foldl (fun a y => max a (f y)) b := by
  intro l
  induction l with
  | nil => intro b x hx; exact absurd hx (List.not_mem_nil x)
  | cons y l ih =>
    intro b x hx
    simp only [List.foldl_cons]
    rcases List.mem_cons.mp hx with rfl | hx2
    · exact le_trans (Nat.le_max_right b (f x)) (init_le_foldl_max f l _)
    · exact ih _ x hx2

theorem foldl_max_le {α : Type} (f : α → Nat) :
    ∀ (l : List α) (b B : Nat), b ≤ B → (∀ x ∈ l, f x ≤ B) →
      l.foldl (fun a x => max a (f x)) b ≤ B := by
  intro l
  induction l with
  | nil => intro b B h _; exact h
  | cons x l ih =>
    intro b B h hall
    simp only [List.foldl_cons]
    exact ih _ B (by
      have := hall x (by simp)
      omega) (fun y hy => hall y (by simp [hy]))

theorem getD_range_map {α : Type} (g : Nat → α) (d : α) {c n : Nat} (h : c < n) :
    ((List.range n).map g).getD c d = g c := by
  rw [List.getD_eq_get?, List.get?_map, List.get?_range h]
  rfl

theorem getD_map_nameLength (l : List SField) {c : Nat} (h : c < l.length) :
    (l.map (fun f => f.name.length)).getD c 0 = (l.getD c ⟨""⟩).name.length := by
  rw [List.getD_eq_get?, List.get?_map, get?_eq_some_getD l c ⟨""⟩ h]
  rfl
/-- C8 (amended): for a non-empty, well-formed row list (every row has at
least as many values as the first row has schema fields; header names and
rendered cells fit the 106-character padding pools), the static
`DataFrame.show` prints a bordered table in which every column's width equals
the maximum of the header-name length and the (possibly truncated) rendered
cell lengths of the column, every cell is right-padded with spaces to the
column width PLUS ONE (each cell field carries at least one trailing space),
and when truncation is requested no rendered cell exceeds 20 characters and
every cell rendering longer than 20 characters is replaced by its first 17
characters followed by "...". -/
theorem C8_show_layout (truncate : Bool) (row0 : ShowRow) (rest : List ShowRow)
    (hlen : ∀ r ∈ row0 :: rest, row0.fields.length ≤ r.values.length)
    (hhead : ∀ f ∈ row0.fields, f.name.length ≤ 105)
    (hcell : ∀ r ∈ row0 :: rest, ∀ c, c < row0.fields.length →
      (cellOf truncate r c).length ≤ 105) :
    ∃ colWidths : List Nat,
      showCompute truncate row0 (row0 :: rest)
        = some ((row0 :: rest).map
            (fun r => (List.range row0.fields.length).map (cellOf truncate r)), colWidths) ∧
      colWidths.length = row0.fields.length ∧
      (∀ c, c < row0.fields.length →
        colWidths.getD c 0 = widthSpec truncate row0 (row0 :: rest) c) ∧
      (∀ r ∈ row0 :: rest, ∀ c, c < row0.fields.length →
        (cellOf truncate r c).length ≤ colWidths.getD c 0) ∧
      (DFshow (some (row0 :: rest)) truncate).2 = false ∧
      (DFshow (some (row0 :: rest)) truncate).1
        = [ "+" ++ String.join (colWidths.map (fun w => sepSeg w ++ "+")),
            "|" ++ String.join ((List.zip row0.fields colWidths).map
              (fun p => p.1.name ++ spacesStr (p.2 + 1 - p.1.name.length) ++ "|")),
            "+" ++ String.join (colWidths.map (fun w => sepSeg w ++ "+")) ]
          ++ ((row0 :: rest).map
                (fun r => (List.range row0.fields.length).map (cellOf truncate r))).map
              (fun cells => "|" ++ String.join ((List.zip cells colWidths).map
                (fun p => p.1 ++ spacesStr (p.2 + 1 - p.1.length) ++ "|")))
          ++ [ "+" ++ String.join (colWidths.map (fun w => sepSeg w ++ "+")) ] ∧
      (truncate = true → ∀ r ∈ row0 :: rest, ∀ c, c < row0.fields.length →
        (cellOf truncate r c).length ≤ 20 ∧
        (20 < (stringifyJ (r.values.getD c JValue.jnull)).length →
          cellOf truncate r c
            = String.mk ((stringifyJ (r.values.getD c JValue.jnull)).data.take 17) ++ "...")) := by
  set nc := row0.fields.length with hnc
  set rows := row0 :: rest with hrows
  set lens : ShowRow → List Nat :=
    fun r => ((List.range nc).map (cellOf truncate r)).map String.length with hlens
  have hlensLen : ∀ r, (lens r).length = nc := by
    intro r; simp [hlens]
  set ws0 : List Nat := row0.fields.map (fun f => f.name.length) with hws0
  have hws0Len : ws0.length = nc := by simp [hws0, hnc]
  set W : List Nat := rows.foldl (fun ws r => List.zipWith max ws (lens r)) ws0 with hW
  set dataSpec : List (List String) :=
    rows.map (fun r => (List.range nc).map (cellOf truncate r)) with hdata
  have hsc : showCompute truncate row0 rows = some (dataSpec, W) := by
    have h := showFold_eq truncate nc rows [] ws0 hlen
    simpa [showCompute, hdata, hW, hlens] using h
  have hWlen : W.length = nc := foldl_zipWith_length nc lens hlensLen rows ws0 hws0Len
  have hpoint : ∀ c, c < nc → W.getD c 0 = widthSpec truncate row0 rows c := by
    intro c hc
    rw [hW, foldl_zipWith_max_getD nc lens hlensLen rows ws0 hws0Len c hc]
    have hinit : ws0.getD c 0 = headerLen row0 c := by
      rw [hws0]
      exact getD_map_nameLength row0.fields (by omega)
    have hfun : ∀ (a : Nat), ∀ r ∈ rows, max a ((lens r).getD c 0)
        = max a (cellOf truncate r c).length := by
      intro a r _
      have hlr : (lens r).getD c 0 = (cellOf truncate r c).length := by
        rw [hlens]
        simp only [List.map_map]
        exact getD_range_map (fun i => (cellOf truncate r i).length) 0 hc
      rw [hlr]
    rw [hinit]
    unfold widthSpec
    exact List.foldl_ext _ _ _ (fun a r hr => hfun a r hr)
  have hmem_le : ∀ r ∈ rows, ∀ c, c < nc →
      (cellOf truncate r c).length ≤ W.getD c 0 := by
    intro r hr c hc
    rw [hpoint c hc]
    unfold widthSpec
    exact mem_le_foldl_max (fun r => (cellOf truncate r c).length) rows _ r hr
  have hbound : ∀ w ∈ W, w ≤ 105 := by
    intro w hw
    obtain ⟨n, hn⟩ := List.mem_iff_get?.mp hw
    have hnlt : n < W.length := by
      by_contra hcon
      rw [List.get?_eq_none.mpr (by omega)] at hn
      cases hn
    have hgd : W.getD n 0 = w := by
      rw [List.getD_eq_get?, hn]; rfl
    rw [← hgd, hpoint n (by omega)]
    unfold widthSpec
    apply foldl_max_le
    · have hmem : row0.fields.getD n ⟨""⟩ ∈ row0.fields := by
        have hget := get?_eq_some_getD row0.fields n ⟨""⟩ (by rw [← hnc]; omega)
        exact List.mem_iff_get?.mpr ⟨n, hget⟩
      exact hhead _ hmem
    · intro r hr
      exact hcell r hr n (by omega)
  have hjust : ∀ (s : String) (w : Nat), w ∈ W →
      justify s (w + 1) = s ++ spacesStr (w + 1 - s.length) := by
    intro s w hw
    exact justify_eq_pad s (w + 1) (by have := hbound w hw; omega)
  have hcol : List.map (fun p => justify p.1.name (p.2 + 1) ++ "|") (row0.fields.zip W)
      = List.map (fun p => p.1.name ++ spacesStr (p.2 + 1 - p.1.name.length) ++ "|")
          (row0.fields.zip W) := by
    apply List.map_congr_left
    intro p hp
    rcases List.of_mem_zip hp with ⟨_, hpW⟩
    rw [hjust p.1.name p.2 hpW]
  have hdatfun : (fun (cells : List String) => "|" ++ String.join
        (List.map (fun p => justify p.1 (p.2 + 1) ++ "|") (cells.zip W)))
      = (fun (cells : List String) => "|" ++ String.join
        (List.map (fun p => p.1 ++ spacesStr (p.2 + 1 - p.1.length) ++ "|") (cells.zip W))) := by
    funext cells
    congr 1
    congr 1
    apply List.map_congr_left
    intro p hp
    rcases List.of_mem_zip hp with ⟨_, hpW⟩
    rw [hjust p.1 p.2 hpW]
  refine ⟨W, hsc, hWlen, hpoint, hmem_le, ?_, ?_, ?_⟩
  · simp [DFshow, hsc]
  · simp only [DFshow, hsc]
    rw [hcol, hdatfun]
  · intro ht r hr c hc
    subst ht
    constructor
    · exact truncateCell_length_le _
    · intro hlong
      exact truncateCell_long _ hlong

/-- C8 (counterexample): with header "ab" and a single cell rendering "42"
(both of length 2, so the column width is 2), padding "to the column width"
would print the data line "|42|", but the code prints "|42 |": every cell
field is the column width plus one. -/
theorem C8_counterexample_padding :
    (DFshow (some [ ⟨[ JValue.jnum 42 ], [ ⟨"ab"⟩ ] ⟩ ]) false).1.getD 3 ""
      = "|42 |" ∧ "|42 |" ≠ "|" ++ "42" ++ "|" := by
  refine ⟨?_, ?_⟩ <;> decide

/-- C8 (witness): the layout theorem applied to a concrete one-row table with
truncation requested. -/
theorem C8_witness :
    (DFshow (some [ ⟨[ JValue.jstr "x" ], [ ⟨"name"⟩ ] ⟩ ]) true).2 = false := by
  obtain ⟨W, -, -, -, -, hflag, -, -⟩ :=
    C8_show_layout true ⟨[ JValue.jstr "x" ], [ ⟨"name"⟩ ]⟩ []
      (by decide) (by decide) (by decide)
  exact hflag
